import Mathlib

/-!
Verification of the valuation-index pipeline of `src/app.py` (`get_data`,
lines 24-64).  The numeric pipeline (lines 50-64) is embedded shallowly:

* float values are modelled as real numbers (`ℝ`);
* a pandas timestamp index entry is modelled as an integer day number
  (days since 1970-01-01), so that the `.days` difference at line 54 is
  plain integer subtraction;
* a possibly non-numeric `Close` cell is `Option ℝ` (`none` = unparsable
  or NaN, coerced to NaN and hence dropped by the `> 0` filter of line 51);
* a cell that pandas would hold as NaN (the first 199 rolling-mean values,
  line 53) is `Option ℝ` with `none` for NaN, and `.dropna()` (line 55)
  drops rows whose rolling mean is `none`;
* an uncaught exception (`scipy.stats.linregress` raising on an empty or
  degenerate input at line 60) is modelled by the result `none` of
  `get_data`; a normally returned frame is `some rows` (the early
  `return pd.DataFrame()` / `return df` of lines 46-48 on empty input is
  `some []`).

The pipeline steps are translated one definition per source expression so
they can be compared line by line with `src/app.py`.
-/

/-- Day number of the genesis date `pd.Timestamp("2009-01-03")` of line 54,
counted in days since 1970-01-01 (10 leap years in 1970-2008:
39*365+10 = 14245 days to 2009-01-01, hence 14247 to 2009-01-03). -/
def genesisDay : ℤ := 14247

/-- One row of the raw downloaded frame reaching line 50: a timestamp
(integer day number) and a `Close` cell that may be non-numeric (`none`). -/
structure RawEntry where
  ts : ℤ
  close : Option ℝ

/-- Line 51, `df = df[pd.to_numeric(df['Close'], errors='coerce') > 0]`:
keep exactly the rows whose close parses to a positive number.  No sorting
and no timestamp deduplication happens anywhere in `get_data`. -/
noncomputable def cleanSeries (raw : List RawEntry) : List (ℤ × ℝ) :=
  raw.filterMap fun e =>
    match e.close with
    | some c => if 0 < c then some (e.ts, c) else none
    | none => none

/-- The trailing window of (up to) 200 closes ending at index `i`, as used
by `.rolling(200)` at line 53. -/
def window (closes : List ℝ) (i : ℕ) : List ℝ :=
  (closes.drop (i - 199)).take 200

/-- Line 53, `np.exp(np.log(df['Close']).rolling(200).mean())`: defined
(`some`) only once the window holds 200 samples, i.e. from index 199 on;
NaN (`none`) before. -/
noncomputable def rollingGeoMean (closes : List ℝ) (i : ℕ) : Option ℝ :=
  if 199 ≤ i then some (Real.exp (((window closes i).map Real.log).sum / 200))
  else none

/-- A row after lines 53-54 added the `GeoMean` and `Days` columns. -/
structure PreRow where
  ts : ℤ
  close : ℝ
  days : ℤ
  geoMean : Option ℝ

/-- Lines 53-54: annotate each cleaned row with its rolling geometric mean
(by position in the cleaned frame) and its age `(index - genesis).days`. -/
noncomputable def annotate (cleaned : List (ℤ × ℝ)) : List PreRow :=
  cleaned.enum.map fun p =>
    { ts := p.2.1, close := p.2.2, days := p.2.1 - genesisDay,
      geoMean := rollingGeoMean (cleaned.map Prod.snd) p.1 }

/-- A row surviving line 55: every column is a (non-NaN) number. -/
structure Row where
  ts : ℤ
  close : ℝ
  days : ℤ
  geoMean : ℝ

/-- Line 55, `df = df[df['Days'] > 0].dropna()`: keep rows with positive
age whose rolling mean is defined (`Close` and `Days` are never NaN). -/
noncomputable def dropna (rows : List PreRow) : List Row :=
  rows.filterMap fun r =>
    if 0 < r.days then
      r.geoMean.map fun g => { ts := r.ts, close := r.close, days := r.days, geoMean := g }
    else none

/-- Line 58, the fixed model for the base asset:
`10 ** (5.84 * np.log10(df['Days']) - 17.01)`. -/
noncomputable def btcFair (d : ℤ) : ℝ :=
  (10 : ℝ) ^ (5.84 * Real.logb 10 (d : ℝ) - 17.01)

/-- The general fixed power-law family `10 ^ (slope * log10 d + intercept)`
of which line 58 is the instance `slope = 5.84`, `intercept = -17.01`. -/
noncomputable def powerLawFair (s k : ℝ) (d : ℤ) : ℝ :=
  (10 : ℝ) ^ (s * Real.logb 10 (d : ℝ) + k)

/-- Line 60, `scipy.stats.linregress(xs, ys)` returning `(slope, intercept)`.
`scipy` raises a `ValueError` (modelled by `none`) when the inputs are
empty or all `x` values are identical; both conditions are exactly
`ssxx = 0`, the vanishing of the centred sum of squares of `xs`. -/
noncomputable def linregress (xs ys : List ℝ) : Option (ℝ × ℝ) :=
  let xbar := xs.sum / xs.length
  let ybar := ys.sum / ys.length
  let ssxx := (xs.map fun x => (x - xbar) ^ 2).sum
  let ssxy := ((xs.zip ys).map fun p => (p.1 - xbar) * (p.2 - ybar)).sum
  if ssxx = 0 then none else some (ssxy / ssxx, ybar - ssxy / ssxx * xbar)

/-- A fully annotated output row of `get_data` (columns `Close`, `GeoMean`,
`Days`, `Predicted`, `AHR999`). -/
structure OutRow where
  ts : ℤ
  close : ℝ
  days : ℤ
  geoMean : ℝ
  predicted : ℝ
  ahr999 : ℝ

/-- Line 63, `df['AHR999'] = (df['Close'] / df['GeoMean']) * (df['Close'] /
df['Predicted'])`, packaged with the `Predicted` column it uses. -/
noncomputable def finish (r : Row) (fair : ℝ) : OutRow :=
  { ts := r.ts, close := r.close, days := r.days, geoMean := r.geoMean,
    predicted := fair, ahr999 := r.close / r.geoMean * (r.close / fair) }

/-- The whole of `get_data` from line 48 on.  `isBTC` is the line 57 test
`"BTC" in ticker`.  The result is `none` when the computation raises
(regression on a degenerate input), `some rows` otherwise; an empty input
frame returns early at line 48 with the empty frame. -/
noncomputable def get_data (isBTC : Bool) (raw : List RawEntry) : Option (List OutRow) :=
  if raw.isEmpty then some [] else
  if isBTC then
    some ((dropna (annotate (cleanSeries raw))).map fun r => finish r (btcFair r.days))
  else
    match linregress ((dropna (annotate (cleanSeries raw))).map fun r => Real.logb 10 (r.days : ℝ))
        ((dropna (annotate (cleanSeries raw))).map fun r => Real.logb 10 r.close) with
    | none => none
    | some si =>
        some ((dropna (annotate (cleanSeries raw))).map fun r =>
          finish r ((10 : ℝ) ^ (si.2 + si.1 * Real.logb 10 (r.days : ℝ))))

/-- A synthetic input series: `n` consecutive daily entries of constant
close `c`, starting the day after genesis. -/
noncomputable def constRaw (n : ℕ) (c : ℝ) : List RawEntry :=
  (List.range n).map fun i : ℕ => { ts := genesisDay + 1 + (i : ℤ), close := some c }

/-- Uniform positive rescaling of every close of a raw series. -/
noncomputable def scaleRaw (c : ℝ) (raw : List RawEntry) : List RawEntry :=
  raw.map fun e => { ts := e.ts, close := e.close.map fun x => c * x }

lemma mem_cleanSeries_pos {raw : List RawEntry} {p : ℤ × ℝ}
    (hp : p ∈ cleanSeries raw) : 0 < p.2 := by
  rw [cleanSeries, List.mem_filterMap] at hp
  rcases hp with ⟨⟨t, c⟩, _, he⟩
  cases c with
  | none => simp at he
  | some c =>
      simp only at he
      by_cases h : 0 < c
      · rw [if_pos h] at he
        obtain rfl : (t, c) = p := Option.some.inj he
        exact h
      · rw [if_neg h] at he
        exact absurd he (by simp)

lemma rollingGeoMean_eq_none_iff (closes : List ℝ) (i : ℕ) :
    rollingGeoMean closes i = none ↔ i < 199 := by
  rw [rollingGeoMean]
  split
  · simp only [reduceCtorEq, false_iff]
    omega
  · simp only [true_iff]
    omega

lemma rollingGeoMean_isSome_iff (closes : List ℝ) (i : ℕ) :
    (rollingGeoMean closes i).isSome = true ↔ 199 ≤ i := by
  rw [rollingGeoMean]
  split
  · simpa using by omega
  · simpa using by omega

lemma rollingGeoMean_pos {closes : List ℝ} {i : ℕ} {g : ℝ}
    (h : rollingGeoMean closes i = some g) : 0 < g := by
  rw [rollingGeoMean] at h
  split at h
  · cases h
    exact Real.exp_pos _
  · exact absurd h (by simp)

lemma length_annotate (cleaned : List (ℤ × ℝ)) :
    (annotate cleaned).length = cleaned.length := by
  simp [annotate, List.enum_length]

lemma getElem_annotate (cleaned : List (ℤ × ℝ)) (i : ℕ) (h1 : i < cleaned.length)
    (h2 : i < (annotate cleaned).length) :
    (annotate cleaned)[i] =
      { ts := cleaned[i].1, close := cleaned[i].2, days := cleaned[i].1 - genesisDay,
        geoMean := rollingGeoMean (cleaned.map Prod.snd) i } := by
  simp [annotate, List.getElem_enum]

lemma get_data_btc_isSome (raw : List RawEntry) : (get_data true raw).isSome = true := by
  rw [get_data]
  split <;> simp

/-- C1: on the annotated frame that `get_data` returns, the deviation index
column satisfies `AHR999 = (Close / GeoMean) * (Close / Predicted)` at every
row, and the rolling-mean factor is NaN (undefined) exactly at the first 199
positions of the cleaned series, so the index is undefined (the row is
absent) there. -/
theorem C1_deviation_formula :
    (∀ (b : Bool) (raw : List RawEntry),
        ((get_data b raw).getD []).map OutRow.ahr999
          = ((get_data b raw).getD []).map fun r => r.close / r.geoMean * (r.close / r.predicted))
    ∧ ∀ (closes : List ℝ) (i : ℕ), rollingGeoMean closes i = none ↔ i < 199 := by
  constructor
  · intro b raw
    rw [get_data]
    split
    · rfl
    · split
      · simp [List.map_map, finish]
      · split
        · rfl
        · simp [List.map_map, finish]
  · exact rollingGeoMean_eq_none_iff

/-- C3 counterexample: the raw series with timestamps `2, 2, 1` (all prices
positive) is cleaned to a series whose timestamps are still `2, 2, 1`: the
cleaning step of line 51 neither sorts nor deduplicates, so the cleaned
series is not strictly increasing in timestamp. -/
theorem C3_counterexample :
    (cleanSeries [⟨2, some 1⟩, ⟨2, some 3⟩, ⟨1, some 1⟩]).map Prod.fst = [2, 2, 1]
    ∧ ¬ ((cleanSeries [⟨2, some 1⟩, ⟨2, some 3⟩, ⟨1, some 1⟩]).map Prod.fst).Chain' (· < ·) := by
  have h : (cleanSeries [⟨2, some 1⟩, ⟨2, some 3⟩, ⟨1, some 1⟩]).map Prod.fst = [2, 2, 1] := by
    norm_num [cleanSeries, List.filterMap_cons]
  refine ⟨h, ?_⟩
  rw [h]
  simp [List.chain'_cons]

/-- C3 (amended): the cleaning step keeps exactly the entries whose price is
numeric and positive, in their original input order (no sorting, no
deduplication); in particular the cleaned timestamps form a subsequence of
the raw ones. -/
theorem C3_cleaning (raw : List RawEntry) :
    (cleanSeries raw
        = (raw.filter fun e => decide (0 < e.close.getD 0)).map fun e => (e.ts, e.close.getD 0))
    ∧ ((cleanSeries raw).map Prod.fst).Sublist (raw.map RawEntry.ts) := by
  have h1 : cleanSeries raw
      = (raw.filter fun e => decide (0 < e.close.getD 0)).map fun e => (e.ts, e.close.getD 0) := by
    induction raw with
    | nil => rfl
    | cons e raw ih =>
        rcases e with ⟨t, c⟩
        cases c with
        | none =>
            simpa [cleanSeries, List.filterMap_cons, List.filter_cons] using ih
        | some c =>
            by_cases h : 0 < c
            · simpa [cleanSeries, List.filterMap_cons, List.filter_cons, h] using ih
            · simpa [cleanSeries, List.filterMap_cons, List.filter_cons, h] using ih
  refine ⟨h1, ?_⟩
  rw [h1, List.map_map]
  have h2 : (raw.filter fun e => decide (0 < e.close.getD 0)).Sublist raw :=
    List.filter_sublist raw
  simpa using h2.map RawEntry.ts

/-- C4: for the fixed power-law profile every returned row carries
`Predicted = 10 ^ (5.84 * log10 Days - 17.01)`, and at `Days = 5000` the
model value is exactly `10 ^ (5.84 * log10 5000 - 17.01)`. -/
theorem C4_fixed_power_law :
    (∀ raw : List RawEntry,
        ((get_data true raw).getD []).map OutRow.predicted
          = ((get_data true raw).getD []).map fun r =>
              (10 : ℝ) ^ (5.84 * Real.logb 10 (r.days : ℝ) - 17.01))
    ∧ btcFair 5000 = (10 : ℝ) ^ (5.84 * Real.logb 10 (5000 : ℝ) - 17.01) := by
  constructor
  · intro raw
    rw [get_data]
    split
    · rfl
    · simp [List.map_map, finish, btcFair]
  · norm_num [btcFair]

/-- C8: the fixed power-law fair value is strictly increasing in the age
whenever the slope is positive; the source instance `btcFair` is the family
member with slope `5.84 > 0` and intercept `-17.01`. -/
theorem C8_power_law_monotone :
    (∀ s k : ℝ, ∀ d e : ℤ, 0 < s → 0 < d → d < e → powerLawFair s k d < powerLawFair s k e)
    ∧ ∀ d : ℤ, btcFair d = powerLawFair 5.84 (-17.01) d := by
  constructor
  · intro s k d e hs hd hde
    rw [powerLawFair, powerLawFair, Real.rpow_lt_rpow_left_iff (by norm_num : (1:ℝ) < 10)]
    have h1 : Real.logb 10 (d : ℝ) < Real.logb 10 (e : ℝ) :=
      Real.logb_lt_logb (by norm_num) (by exact_mod_cast hd) (by exact_mod_cast hde)
    have h2 := mul_lt_mul_of_pos_left h1 hs
    linarith
  · intro d
    rw [btcFair, powerLawFair, sub_eq_add_neg]

/-- C8 witness: the monotonicity theorem applied at slope `1`, intercept `0`,
ages `1 < 2`, together with the `btcFair` instance at age `1`. -/
theorem C8_power_law_monotone_witness :
    powerLawFair 1 0 1 < powerLawFair 1 0 2 ∧ btcFair 1 = powerLawFair 5.84 (-17.01) 1 :=
  ⟨C8_power_law_monotone.1 1 0 1 2 (by norm_num) (by norm_num) (by norm_num),
   C8_power_law_monotone.2 1⟩

lemma filterMap_some_eq_map {α β : Type _} (f : α → β) (l : List α) :
    (l.filterMap fun a => some (f a)) = l.map f := by
  induction l with
  | nil => rfl
  | cons a l ih => simp [List.filterMap_cons, ih]

lemma clean_constRaw (n : ℕ) (c : ℝ) (hc : 0 < c) :
    cleanSeries (constRaw n c)
      = (List.range n).map fun i : ℕ => ((genesisDay + 1 + (i : ℤ)), c) := by
  rw [cleanSeries, constRaw, List.filterMap_map]
  have h : ((fun e : RawEntry =>
        match e.close with
        | some c => if 0 < c then some (e.ts, c) else none
        | none => none)
      ∘ fun i : ℕ => ({ ts := genesisDay + 1 + (i : ℤ), close := some c } : RawEntry))
      = fun i : ℕ => some ((genesisDay + 1 + (i : ℤ)), c) := by
    funext i
    simp [if_pos hc]
  rw [h, filterMap_some_eq_map]

lemma closes_const (n : ℕ) (c : ℝ) :
    (((List.range n).map fun i : ℕ => ((genesisDay + 1 + (i : ℤ)), c)).map Prod.snd)
      = List.replicate n c := by
  rw [List.map_map]
  have h := List.map_const' (List.range n) c
  rw [List.length_range] at h
  exact h

lemma rollingGeoMean_replicate {n i : ℕ} (c : ℝ) (hc : 0 < c) (h1 : 199 ≤ i) (h2 : i < n) :
    rollingGeoMean (List.replicate n c) i = some c := by
  rw [rollingGeoMean, if_pos h1]
  have hw : window (List.replicate n c) i = List.replicate 200 c := by
    rw [window, List.drop_replicate, List.take_replicate]
    have : 200 ⊓ (n - (i - 199)) = 200 := by omega
    rw [this]
  rw [hw, List.map_replicate, List.sum_replicate, nsmul_eq_mul]
  have h200 : ((200 : ℕ) : ℝ) = (200 : ℝ) := by norm_num
  rw [h200, mul_div_cancel_left₀ _ (by norm_num : (200 : ℝ) ≠ 0), Real.exp_log hc]

lemma filterMap_range_drop {α : Type _} (k n : ℕ) (f : ℕ → α) :
    ((List.range n).filterMap fun i => if k ≤ i then some (f i) else none)
      = ((List.range n).drop k).map f := by
  induction n with
  | zero => simp
  | succ n ih =>
      rw [List.range_succ, List.filterMap_append, ih]
      by_cases h : k ≤ n
      · rw [List.drop_append_of_le_length (by simpa using h), List.map_append]
        simp [h]
      · have hlen : (List.range n ++ [n]).length ≤ k := by
          simp only [List.length_append, List.length_range, List.length_cons,
            List.length_nil]
          omega
        have hlen2 : (List.range n).length ≤ k := by
          simp only [List.length_range]
          omega
        rw [List.drop_eq_nil_of_le hlen, List.drop_eq_nil_of_le hlen2]
        simp [h]

lemma rows_const (n : ℕ) (c : ℝ) (hc : 0 < c) :
    dropna (annotate (cleanSeries (constRaw n c)))
      = ((List.range n).drop 199).map fun i : ℕ =>
          ({ ts := genesisDay + 1 + (i : ℤ), close := c, days := 1 + (i : ℤ),
             geoMean := c } : Row) := by
  rw [clean_constRaw n c hc]
  have hA : annotate ((List.range n).map fun i : ℕ => ((genesisDay + 1 + (i : ℤ)), c))
      = (List.range n).map fun i : ℕ =>
          ({ ts := genesisDay + 1 + (i : ℤ), close := c, days := 1 + (i : ℤ),
             geoMean := rollingGeoMean (List.replicate n c) i } : PreRow) := by
    apply List.ext_getElem
    · simp [length_annotate]
    · intro j h1 h2
      have hj : j < ((List.range n).map fun i : ℕ =>
          ((genesisDay + 1 + (i : ℤ)), c)).length := by
        simpa [length_annotate] using h1
      rw [getElem_annotate _ j hj h1, closes_const]
      simp only [List.getElem_map, List.getElem_range]
      simp only [PreRow.mk.injEq, true_and, and_true]
      omega
  rw [hA, dropna, List.filterMap_map]
  rw [List.filterMap_congr
      (g := fun i : ℕ => if 199 ≤ i then
        some ({ ts := genesisDay + 1 + (i : ℤ), close := c, days := 1 + (i : ℤ),
                geoMean := c } : Row) else none) ?_]
  · exact filterMap_range_drop 199 n _
  · intro i hi
    have hin : i < n := List.mem_range.mp hi
    simp only [Function.comp]
    rw [if_pos (by omega : (0 : ℤ) < 1 + (i : ℤ))]
    by_cases h9 : 199 ≤ i
    · rw [rollingGeoMean_replicate c hc h9 hin, if_pos h9, Option.map_some']
    · rw [(rollingGeoMean_eq_none_iff _ _).mpr (by omega), if_neg h9, Option.map_none']

lemma get_data_const (n : ℕ) (c : ℝ) (hc : 0 < c) :
    get_data true (constRaw n c)
      = some (((List.range n).drop 199).map fun i : ℕ =>
          ({ ts := genesisDay + 1 + (i : ℤ), close := c, days := 1 + (i : ℤ), geoMean := c,
             predicted := btcFair (1 + (i : ℤ)),
             ahr999 := c / c * (c / btcFair (1 + (i : ℤ))) } : OutRow)) := by
  rcases Nat.eq_zero_or_pos n with rfl | hn
  · rfl
  · have hne : (constRaw n c).isEmpty = false := by
      rw [constRaw, List.isEmpty_eq_false_iff_exists_mem]
      exact ⟨_, List.mem_map_of_mem _ (List.mem_range.mpr hn)⟩
    rw [get_data, hne, if_neg (by simp), if_pos rfl, rows_const n c hc, List.map_map]
    rfl

/-- C2 counterexample: a series of 200 valid constant-price entries cleans to
200 entries, yet the annotated frame `get_data` returns has a single row:
the 199 entries with fewer than 200 predecessors are dropped by the
`.dropna()` of line 55, not retained with an absent field. -/
theorem C2_counterexample :
    (cleanSeries (constRaw 200 1)).length = 200
    ∧ ((get_data true (constRaw 200 1)).getD []).length = 1 := by
  constructor
  · rw [clean_constRaw 200 1 (by norm_num)]
    simp
  · rw [get_data_const 200 1 (by norm_num)]
    simp

/-- C2 (amended): the rolling mean is defined exactly from index 199 of the
cleaned series on; the earlier entries are then dropped from the annotated
frame (for the fixed-profile branch, which never raises), so a constant
valid series of `n` entries yields `n - 199` annotated rows — in particular
a series of exactly 199 valid entries yields an empty annotated frame
without crashing. -/
theorem C2_first199_dropped :
    (∀ (closes : List ℝ) (i : ℕ), (rollingGeoMean closes i).isSome = true ↔ 199 ≤ i)
    ∧ (∀ raw : List RawEntry, (get_data true raw).isSome = true)
    ∧ ∀ n : ℕ, ((get_data true (constRaw n 1)).getD []).length = n - 199 := by
  refine ⟨rollingGeoMean_isSome_iff, get_data_btc_isSome, ?_⟩
  intro n
  rw [get_data_const n 1 (by norm_num)]
  simp

lemma geoMean_bounds {closes : List ℝ} {i : ℕ} {lo hi : ℝ}
    (h1 : 199 ≤ i) (h2 : i < closes.length) (hlo : 0 < lo)
    (hl : ∀ x ∈ window closes i, lo ≤ x) (hh : ∀ x ∈ window closes i, x ≤ hi) :
    lo ≤ (rollingGeoMean closes i).getD 0 ∧ (rollingGeoMean closes i).getD 0 ≤ hi := by
  have hlen : (window closes i).length = 200 := by
    rw [window, List.length_take, List.length_drop]
    omega
  have hxpos : ∀ x ∈ window closes i, 0 < x := fun x hx => lt_of_lt_of_le hlo (hl x hx)
  rw [rollingGeoMean, if_pos h1, Option.getD_some]
  constructor
  · have hlow : ∀ y ∈ (window closes i).map Real.log, Real.log lo ≤ y := by
      intro y hy
      rcases List.mem_map.mp hy with ⟨x, hx, rfl⟩
      exact Real.log_le_log hlo (hl x hx)
    have hsum := List.card_nsmul_le_sum ((window closes i).map Real.log) (Real.log lo) hlow
    rw [List.length_map, hlen, nsmul_eq_mul] at hsum
    have hdiv : Real.log lo ≤ ((window closes i).map Real.log).sum / 200 := by
      rw [le_div_iff₀ (by norm_num : (0 : ℝ) < 200)]
      push_cast at hsum
      linarith
    calc lo = Real.exp (Real.log lo) := (Real.exp_log hlo).symm
      _ ≤ _ := Real.exp_le_exp.mpr hdiv
  · obtain ⟨x0, hx0⟩ : ∃ x, x ∈ window closes i :=
      List.exists_mem_of_length_pos (by omega)
    have hhi : 0 < hi := lt_of_lt_of_le (hxpos x0 hx0) (hh x0 hx0)
    have hup : ∀ y ∈ (window closes i).map Real.log, y ≤ Real.log hi := by
      intro y hy
      rcases List.mem_map.mp hy with ⟨x, hx, rfl⟩
      exact Real.log_le_log (hxpos x hx) (hh x hx)
    have hsum := List.sum_le_card_nsmul ((window closes i).map Real.log) (Real.log hi) hup
    rw [List.length_map, hlen, nsmul_eq_mul] at hsum
    have hdiv : ((window closes i).map Real.log).sum / 200 ≤ Real.log hi := by
      rw [div_le_iff₀ (by norm_num : (0 : ℝ) < 200)]
      push_cast at hsum
      linarith
    calc Real.exp _ ≤ Real.exp (Real.log hi) := Real.exp_le_exp.mpr hdiv
      _ = hi := Real.exp_log hhi

/-- C7: a defined rolling geometric mean lies between any lower and upper
bound of its trailing 200-sample window (hence between the window's least
and greatest close), and on a constant-price series of 100 every defined
rolling mean equals 100. -/
theorem C7_geo_mean_bounds :
    (∀ (closes : List ℝ) (i : ℕ) (lo hi : ℝ), 199 ≤ i → i < closes.length → 0 < lo →
        (∀ x ∈ window closes i, lo ≤ x) → (∀ x ∈ window closes i, x ≤ hi) →
        lo ≤ (rollingGeoMean closes i).getD 0 ∧ (rollingGeoMean closes i).getD 0 ≤ hi)
    ∧ ∀ n : ℕ, ((get_data true (constRaw n 100)).getD []).map OutRow.geoMean
        = List.replicate (n - 199) (100 : ℝ) := by
  constructor
  · intro closes i lo hi h1 h2 hlo hl hh
    exact geoMean_bounds h1 h2 hlo hl hh
  · intro n
    rw [get_data_const n 100 (by norm_num)]
    simp only [Option.getD_some, List.map_map]
    have h := List.map_const' ((List.range n).drop 199) (100 : ℝ)
    rw [List.length_drop, List.length_range] at h
    exact h

/-- C7 witness: the bound theorem applied to a 300-entry constant window of
price 100 with both bounds 100. -/
theorem C7_geo_mean_bounds_witness :
    (100 : ℝ) ≤ (rollingGeoMean (List.replicate 300 100) 199).getD 0
    ∧ (rollingGeoMean (List.replicate 300 100) 199).getD 0 ≤ 100 :=
  C7_geo_mean_bounds.1 (List.replicate 300 100) 199 100 100 (by norm_num)
    (by rw [List.length_replicate]; norm_num) (by norm_num)
    (by
      intro x hx
      rw [window, List.drop_replicate, List.take_replicate] at hx
      exact (List.eq_of_mem_replicate hx).ge)
    (by
      intro x hx
      rw [window, List.drop_replicate, List.take_replicate] at hx
      exact (List.eq_of_mem_replicate hx).le)

lemma dropna_annotate_short {cleaned : List (ℤ × ℝ)} (h : cleaned.length ≤ 199) :
    dropna (annotate cleaned) = [] := by
  rw [dropna, List.filterMap_eq_nil_iff]
  intro r hr
  rw [annotate, List.mem_map] at hr
  rcases hr with ⟨p, hp, rfl⟩
  rw [List.enum_eq_zip_range] at hp
  rcases p with ⟨i, q⟩
  have hip : i < cleaned.length := List.mem_range.mp (List.of_mem_zip hp).1
  have hnone : rollingGeoMean (cleaned.map Prod.snd) i = none :=
    (rollingGeoMean_eq_none_iff _ _).mpr (by omega)
  simp [hnone]

lemma linregress_nil : linregress [] [] = none := by
  simp [linregress]

lemma get_data_reg_short {raw : List RawEntry} (h1 : raw.isEmpty = false)
    (h2 : (cleanSeries raw).length ≤ 199) : get_data false raw = none := by
  rw [get_data, h1]
  rw [if_neg (by simp), if_neg (by simp)]
  rw [dropna_annotate_short h2]
  simp [linregress_nil]

lemma range_drop_eq (k m : ℕ) :
    (List.range (k + m)).drop k = (List.range m).map fun j : ℕ => k + j := by
  rw [List.range_add, List.drop_left' (List.length_range k)]

lemma linregress_isSome (xs ys : List ℝ)
    (h : (xs.map fun x => (x - xs.sum / (xs.length : ℝ)) ^ 2).sum ≠ 0) :
    (linregress xs ys).isSome = true := by
  simp only [linregress]
  rw [if_neg h]
  rfl

/-- C5 counterexample: on a valid series of exactly 10 entries the
regression-profile pipeline raises an uncaught `ValueError` (the frame is
empty after `.dropna()`, and `linregress` rejects empty input), returning
nothing at all — it does not report `InsufficientData` while returning the
rest of the series. -/
theorem C5_counterexample : get_data false (constRaw 10 1) = none := by
  apply get_data_reg_short
  · rw [constRaw, List.isEmpty_eq_false_iff_exists_mem]
    exact ⟨_, List.mem_map_of_mem _ (List.mem_range.mpr (by norm_num : (0:ℕ) < 10))⟩
  · rw [clean_constRaw 10 1 (by norm_num)]
    simp

/-- C5 (amended): the source has no 11-point minimum for the regression
profile.  The fit runs over the post-`dropna` frame, so any non-empty input
whose cleaned series has at most 199 entries makes `linregress` raise on an
empty input and `get_data` return nothing (no partial frame, no
`InsufficientData` signal); conversely 201 constant-price entries already
give a successful fit on just 2 points. -/
theorem C5_regression_no_min_check :
    (∀ raw : List RawEntry, raw.isEmpty = false → (cleanSeries raw).length ≤ 199 →
        get_data false raw = none)
    ∧ (get_data false (constRaw 201 1)).isSome = true := by
  constructor
  · intro raw h1 h2
    exact get_data_reg_short h1 h2
  · have hne : (constRaw 201 1).isEmpty = false := by
      rw [constRaw, List.isEmpty_eq_false_iff_exists_mem]
      exact ⟨_, List.mem_map_of_mem _ (List.mem_range.mpr (by norm_num : (0:ℕ) < 201))⟩
    rw [get_data, hne]
    rw [if_neg (by simp), if_neg (by simp)]
    rw [rows_const 201 1 (by norm_num)]
    rw [show (201 : ℕ) = 199 + 2 from rfl, range_drop_eq]
    have hr2 : (List.range 2).map (fun j : ℕ => 199 + j) = [199, 200] := by
      norm_num [List.range_succ]
    rw [hr2]
    simp only [List.map_cons, List.map_nil]
    have hxne : Real.logb 10 ((1 + ((199 : ℕ) : ℤ) : ℤ) : ℝ)
        ≠ Real.logb 10 ((1 + ((200 : ℕ) : ℤ) : ℤ) : ℝ) := by
      apply ne_of_lt
      apply Real.logb_lt_logb (by norm_num)
      · push_cast
        norm_num
      · push_cast
        norm_num
    set x1 := Real.logb 10 ((1 + ((199 : ℕ) : ℤ) : ℤ) : ℝ) with hx1
    set x2 := Real.logb 10 ((1 + ((200 : ℕ) : ℤ) : ℤ) : ℝ) with hx2
    have hsome : (linregress [x1, x2] [Real.logb 10 1, Real.logb 10 1]).isSome = true := by
      apply linregress_isSome
      have hexp : (([x1, x2] : List ℝ).map
          fun x => (x - ([x1, x2] : List ℝ).sum / (([x1, x2] : List ℝ).length : ℝ)) ^ 2).sum
          = (x1 - x2) ^ 2 / 2 := by
        simp only [List.sum_cons, List.sum_nil, List.length_cons, List.length_nil,
          List.map_cons, List.map_nil]
        push_cast
        ring
      rw [hexp]
      exact div_ne_zero (pow_ne_zero 2 (sub_ne_zero.mpr hxne)) two_ne_zero
    rcases Option.isSome_iff_exists.mp hsome with ⟨v, hv⟩
    rw [hv]
    rfl

/-- C5 witness: a 5-entry valid series drives the general short-series part
of the theorem, and the 2-point fit succeeds per its second part. -/
theorem C5_regression_no_min_check_witness :
    get_data false (constRaw 5 1) = none
    ∧ (get_data false (constRaw 201 1)).isSome = true :=
  ⟨C5_regression_no_min_check.1 (constRaw 5 1)
    (by
      rw [constRaw, List.isEmpty_eq_false_iff_exists_mem]
      exact ⟨_, List.mem_map_of_mem _ (List.mem_range.mpr (by norm_num : (0:ℕ) < 5))⟩)
    (by
      rw [clean_constRaw 5 1 (by norm_num)]
      simp),
   C5_regression_no_min_check.2⟩

/-- C6 counterexample: a non-empty input whose single entry has a
non-positive price cleans to the empty series; on the regression profile the
pipeline then raises inside `linregress` (returns nothing) instead of
terminating with an explicit failure value. -/
theorem C6_counterexample : get_data false [⟨14248, some (-1)⟩] = none := by
  apply get_data_reg_short
  · rfl
  · have h : cleanSeries [⟨14248, some (-1)⟩] = [] := by
      norm_num [cleanSeries, List.filterMap_cons]
    rw [h]
    simp

/-- C6 (amended): called with zero data the pipeline returns the empty frame
(the caller-visible failure signal) for both profiles without crashing; a
non-empty input that cleans to empty still returns the empty frame on the
fixed profile, but raises (returns nothing) on the regression profile. -/
theorem C6_empty_input :
    (∀ b : Bool, get_data b [] = some [])
    ∧ get_data true [⟨14248, some (-1)⟩] = some []
    ∧ get_data false [⟨14248, some (-1)⟩] = none := by
  refine ⟨fun b => rfl, ?_, ?_⟩
  · have hclean : cleanSeries [⟨14248, some (-1)⟩] = [] := by
      norm_num [cleanSeries, List.filterMap_cons]
    rw [get_data, if_neg (by simp), if_pos rfl, hclean]
    rfl
  · apply get_data_reg_short
    · rfl
    · have h : cleanSeries [⟨14248, some (-1)⟩] = [] := by
        norm_num [cleanSeries, List.filterMap_cons]
      rw [h]
      simp

lemma mem_dropna {cleaned : List (ℤ × ℝ)} {r : Row}
    (hpos : ∀ p ∈ cleaned, 0 < p.2)
    (hr : r ∈ dropna (annotate cleaned)) :
    0 < r.close ∧ 0 < r.days ∧ 0 < r.geoMean := by
  rw [dropna, List.mem_filterMap] at hr
  rcases hr with ⟨pre, hpre, hf⟩
  rw [annotate, List.mem_map] at hpre
  rcases hpre with ⟨p, hp, rfl⟩
  rw [List.enum_eq_zip_range] at hp
  rcases p with ⟨i, q⟩
  have hq : q ∈ cleaned := (List.of_mem_zip hp).2
  simp only at hf
  by_cases hd : 0 < q.1 - genesisDay
  · rw [if_pos hd] at hf
    cases hg : rollingGeoMean (cleaned.map Prod.snd) i with
    | none => rw [hg] at hf; simp at hf
    | some g =>
        rw [hg, Option.map_some'] at hf
        obtain rfl := Option.some.inj hf
        exact ⟨hpos q hq, hd, rollingGeoMean_pos hg⟩
  · rw [if_neg hd] at hf
    simp at hf

/-- C10: every row of any frame `get_data` actually returns is fully
defined and well-formed: positive close, positive age, positive (hence
present) rolling mean and model value, and the deviation column equal to
its defining formula; no row with a missing field can appear. -/
theorem C10_output_wellformed (b : Bool) (raw : List RawEntry) (r : OutRow)
    (hr : r ∈ (get_data b raw).getD []) :
    0 < r.close ∧ 0 < r.days ∧ 0 < r.geoMean ∧ 0 < r.predicted
    ∧ r.ahr999 = r.close / r.geoMean * (r.close / r.predicted) := by
  rw [get_data] at hr
  split at hr
  · simp at hr
  · split at hr
    · rw [Option.getD_some, List.mem_map] at hr
      rcases hr with ⟨row, hrow, rfl⟩
      have h3 := mem_dropna (fun p hp => mem_cleanSeries_pos hp) hrow
      exact ⟨h3.1, h3.2.1, h3.2.2, Real.rpow_pos_of_pos (by norm_num) _, rfl⟩
    · split at hr
      · simp at hr
      · rw [Option.getD_some, List.mem_map] at hr
        rcases hr with ⟨row, hrow, rfl⟩
        have h3 := mem_dropna (fun p hp => mem_cleanSeries_pos hp) hrow
        exact ⟨h3.1, h3.2.1, h3.2.2, Real.rpow_pos_of_pos (by norm_num) _, rfl⟩

/-- C10 witness: the well-formedness theorem applied to the single row the
pipeline returns on a 200-entry constant-price series. -/
theorem C10_output_wellformed_witness :
    (0 : ℝ) < 1 ∧ (0 : ℤ) < 1 + ((199 : ℕ) : ℤ) ∧ (0 : ℝ) < 1
    ∧ 0 < btcFair (1 + ((199 : ℕ) : ℤ))
    ∧ (1 : ℝ) / 1 * (1 / btcFair (1 + ((199 : ℕ) : ℤ)))
        = 1 / 1 * (1 / btcFair (1 + ((199 : ℕ) : ℤ))) :=
  C10_output_wellformed true (constRaw 200 1)
    ⟨genesisDay + 1 + ((199 : ℕ) : ℤ), 1, 1 + ((199 : ℕ) : ℤ), 1,
      btcFair (1 + ((199 : ℕ) : ℤ)), 1 / 1 * (1 / btcFair (1 + ((199 : ℕ) : ℤ)))⟩
    (by
      rw [get_data_const 200 1 (by norm_num), Option.getD_some]
      rw [show (200 : ℕ) = 199 + 1 from rfl, range_drop_eq]
      simp [List.range_succ])

lemma sum_map_const_add (l : List ℝ) (a : ℝ) (f : ℝ → ℝ) :
    (l.map fun x => a + f x).sum = l.length * a + (l.map f).sum := by
  induction l with
  | nil => simp
  | cons x l ih =>
      simp only [List.map_cons, List.sum_cons, List.length_cons, ih]
      push_cast
      ring

lemma clean_scale {c : ℝ} (hc : 0 < c) (raw : List RawEntry) :
    cleanSeries (scaleRaw c raw) = (cleanSeries raw).map fun p => (p.1, c * p.2) := by
  induction raw with
  | nil => rfl
  | cons e raw ih =>
      rcases e with ⟨t, x⟩
      cases x with
      | none => simpa [cleanSeries, scaleRaw, List.filterMap_cons] using ih
      | some x =>
          by_cases hx : 0 < x
          · have hcx : 0 < c * x := mul_pos hc hx
            simpa [cleanSeries, scaleRaw, List.filterMap_cons, hx, hcx] using ih
          · have hcx : ¬ 0 < c * x := fun hcx =>
              hx ((mul_pos_iff_of_pos_left hc).mp hcx)
            simpa [cleanSeries, scaleRaw, List.filterMap_cons, hx, hcx] using ih

lemma rollingGeoMean_scale {c : ℝ} (hc : 0 < c) {closes : List ℝ}
    (hpos : ∀ x ∈ closes, 0 < x) {i : ℕ} (hi : i < closes.length) :
    rollingGeoMean (closes.map fun x => c * x) i
      = (rollingGeoMean closes i).map fun g => c * g := by
  by_cases h1 : 199 ≤ i
  · rw [rollingGeoMean, rollingGeoMean, if_pos h1, if_pos h1, Option.map_some']
    congr 1
    have hw : window (closes.map fun x => c * x) i
        = (window closes i).map fun x => c * x := by
      rw [window, window, ← List.map_drop, ← List.map_take]
    rw [hw, List.map_map]
    have hlen : (window closes i).length = 200 := by
      rw [window, List.length_take, List.length_drop]
      omega
    have hpt : ∀ x ∈ window closes i,
        (Real.log ∘ fun x => c * x) x = Real.log c + Real.log x := by
      intro x hx
      rw [window] at hx
      have hx0 : 0 < x := hpos x (List.mem_of_mem_drop (List.mem_of_mem_take hx))
      simp [Function.comp, Real.log_mul hc.ne' hx0.ne']
    rw [List.map_congr_left hpt, sum_map_const_add, hlen]
    have hdiv : ((200 : ℕ) * Real.log c + ((window closes i).map Real.log).sum) / 200
        = Real.log c + ((window closes i).map Real.log).sum / 200 := by
      push_cast
      rw [add_div, mul_div_cancel_left₀ _ (by norm_num : (200 : ℝ) ≠ 0)]
    rw [hdiv, Real.exp_add, Real.exp_log hc]
  · rw [rollingGeoMean, rollingGeoMean, if_neg h1, if_neg h1]
    rfl

lemma annotate_scale {c : ℝ} (hc : 0 < c) {cleaned : List (ℤ × ℝ)}
    (hpos : ∀ p ∈ cleaned, 0 < p.2) :
    annotate (cleaned.map fun p => (p.1, c * p.2))
      = (annotate cleaned).map fun r =>
          ({ ts := r.ts, close := c * r.close, days := r.days,
             geoMean := r.geoMean.map fun g => c * g } : PreRow) := by
  apply List.ext_getElem
  · simp [length_annotate]
  · intro j h1 h2
    have hj2 : j < cleaned.length := by
      have := h1
      rw [length_annotate, List.length_map] at this
      exact this
    have hj3 : j < (annotate cleaned).length := by
      rw [length_annotate]
      exact hj2
    have hj1 : j < (cleaned.map fun p => (p.1, c * p.2)).length := by
      rw [List.length_map]
      exact hj2
    have hpcl : ∀ x ∈ cleaned.map Prod.snd, 0 < x := by
      intro x hx
      rcases List.mem_map.mp hx with ⟨p, hp, rfl⟩
      exact hpos p hp
    have hsc := rollingGeoMean_scale hc hpcl (i := j) (by simpa using hj2)
    have hcloses : (cleaned.map fun p => (p.1, c * p.2)).map Prod.snd
        = (cleaned.map Prod.snd).map fun x => c * x := by
      rw [List.map_map, List.map_map]
      rfl
    rw [getElem_annotate _ j hj1 h1]
    simp only [List.getElem_map]
    rw [getElem_annotate _ j hj2 hj3, hcloses, hsc]

lemma dropna_scale (c : ℝ) (rows : List PreRow) :
    dropna (rows.map fun r =>
        ({ ts := r.ts, close := c * r.close, days := r.days,
           geoMean := r.geoMean.map fun g => c * g } : PreRow))
      = (dropna rows).map fun r =>
          ({ ts := r.ts, close := c * r.close, days := r.days,
             geoMean := c * r.geoMean } : Row) := by
  rw [dropna, dropna, List.filterMap_map, List.map_filterMap]
  apply List.filterMap_congr
  intro r _
  simp only [Function.comp]
  by_cases hd : 0 < r.days
  · rw [if_pos hd, if_pos hd]
    rcases hgm : r.geoMean with _ | g <;> simp [hgm]
  · rw [if_neg hd, if_neg hd]
    rfl

/-- C9 (amended): uniformly rescaling every close by `c > 0` multiplies the
rolling geometric mean by `c` at every returned row, leaves the fixed-model
`Predicted` column unchanged, and hence multiplies the deviation index by
`c` (not by `c ^ 2`) at every returned row. -/
theorem C9_scaling (c : ℝ) (hc : 0 < c) (raw : List RawEntry) :
    (((get_data true (scaleRaw c raw)).getD []).map OutRow.geoMean
        = ((get_data true raw).getD []).map fun r => c * r.geoMean)
    ∧ (((get_data true (scaleRaw c raw)).getD []).map OutRow.predicted
        = ((get_data true raw).getD []).map OutRow.predicted)
    ∧ ((get_data true (scaleRaw c raw)).getD []).map OutRow.ahr999
        = ((get_data true raw).getD []).map fun r => c * r.ahr999 := by
  cases hE : raw.isEmpty with
  | true =>
      have hE2 : (scaleRaw c raw).isEmpty = true := by
        rcases raw with _ | ⟨e, raw⟩
        · rfl
        · simp at hE
      simp only [get_data, hE, hE2, if_pos rfl]
      simp
  | false =>
      have hE2 : (scaleRaw c raw).isEmpty = false := by
        rcases raw with _ | ⟨e, raw⟩
        · simp at hE
        · rfl
      simp only [get_data, hE, hE2, reduceIte]
      rw [clean_scale hc raw, annotate_scale hc fun p hp => mem_cleanSeries_pos hp,
        dropna_scale]
      simp only [if_neg (show ¬(false = true) by simp), Option.getD_some]
      simp only [List.map_map]
      refine ⟨rfl, rfl, ?_⟩
      apply List.map_congr_left
      intro row _
      simp only [Function.comp, finish]
      rw [mul_div_mul_left _ _ hc.ne', mul_div_assoc]
      ring

/-- C9 witness: the scaling theorem applied with factor `2` to the 200-entry
constant-price series. -/
theorem C9_scaling_witness :
    (((get_data true (scaleRaw 2 (constRaw 200 1))).getD []).map OutRow.geoMean
        = ((get_data true (constRaw 200 1)).getD []).map fun r => 2 * r.geoMean)
    ∧ (((get_data true (scaleRaw 2 (constRaw 200 1))).getD []).map OutRow.predicted
        = ((get_data true (constRaw 200 1)).getD []).map OutRow.predicted)
    ∧ ((get_data true (scaleRaw 2 (constRaw 200 1))).getD []).map OutRow.ahr999
        = ((get_data true (constRaw 200 1)).getD []).map fun r => 2 * r.ahr999 :=
  C9_scaling 2 (by norm_num) (constRaw 200 1)

/-- C9 counterexample: doubling every close of the 200-entry constant series
does not multiply the deviation index by `2 ^ 2 = 4`; the returned deviation
column differs from the quadrupled one (it is in fact doubled). -/
theorem C9_counterexample :
    ((get_data true (constRaw 200 2)).getD []).map OutRow.ahr999
      ≠ ((get_data true (constRaw 200 1)).getD []).map fun r => (2 : ℝ) ^ 2 * r.ahr999 := by
  rw [get_data_const 200 2 (by norm_num), get_data_const 200 1 (by norm_num)]
  rw [Option.getD_some, Option.getD_some]
  rw [show (200 : ℕ) = 199 + 1 from rfl, range_drop_eq]
  simp only [List.map_map, List.range_succ, List.range_zero, List.nil_append,
    List.map_cons, List.map_nil, Function.comp]
  intro h
  simp only [List.cons.injEq, and_true] at h
  norm_num at h
  have hF : (0 : ℝ) < btcFair 200 := Real.rpow_pos_of_pos (by norm_num) _
  rw [div_eq_iff hF.ne', mul_assoc, inv_mul_cancel₀ hF.ne', mul_one] at h
  norm_num at h
